import Mathlib

/-!
Verification of the Stack programming language interpreter (src/main.rs,
`stack-community/stack-opencv`), as a shallow embedding in Lean 4.

Modelling conventions:
* Rust `f64` is modelled by `ℚ`: arithmetic on the values that appear in the
  claims below is exact.  IEEE-754 rounding, infinities and NaN are outside
  the model; none of the theorems proved here depends on them.  Transcendental
  `f64` operations (`sin`, `cos`, `tan`, `exp`, `powf`) are left unmodelled
  (they return `RunErr.unmodeled`).
* Rust `String` is modelled by Lean `String` (both sequences of Unicode
  characters; Rust byte-wise string comparison coincides with character/code
  point comparison for valid UTF-8).
* `HashMap<String, Type>` is modelled by an association list with
  insert-or-overwrite (`memSet`) and remove (`memDel`).
* `opencv::core::Mat` is opaque to the interpreter core; it is modelled by a
  one-constructor type `Mat`.
* The operand stack `Vec<Type>` is modelled by a Lean list whose HEAD is the
  TOP of the stack (`Vec::push`/`Vec::pop` act on the vector's end).
  A `Type::List` value keeps the vector's own order (index 0 first).
* The mutually recursive evaluator (`evaluate_program` / `execute_command`
  and the loops inside `while`/`for`/`map`/`filter`/`reduce`/`range`) is made
  total with an explicit fuel parameter; `RunErr.fuel` marks fuel exhaustion,
  so genuine non-termination of the Rust code shows up as
  "`RunErr.fuel` for every fuel".  `RunErr.panic` marks a Rust panic
  (process abort), `RunErr.exited` the `exit` command, and
  `RunErr.unmodeled` a command whose behaviour depends on the outside world
  (I/O, randomness, time, OpenCV) or on unmodelled `f64` operations.
-/

/-- Execution mode (source: `enum Mode`). -/
inductive Mode where
  | Script
  | Debug
  deriving DecidableEq

/-- The external image-processing payload, opaque to the interpreter core
(source: `opencv::core::Mat`; the core never inspects it). -/
inductive Mat where
  | default
  deriving DecidableEq

/-- The tagged value model (source: `enum Type`).  `Number` carries a `ℚ`
modelling `f64`; `str`/`bool`/`list`/`error`/`image` mirror
`String`/`Bool`/`List`/`Error`/`Image`. -/
inductive Ty where
  | number (n : ℚ)
  | str (s : String)
  | bool (b : Bool)
  | list (l : List Ty)
  | error (e : String)
  | image (m : Mat)

/-- Decimal digits of `num/den` (both `Nat`, `num < den`), `fuel` digits at
most, stopping at an exact expansion.  Used only to render non-integral
numbers (Rust `f64::to_string` prints a shortest decimal; integral values,
the only ones the theorems below evaluate, agree exactly). -/
def fracDigitsF (num den : Nat) : Nat → String
  | 0 => ""
  | fuel + 1 =>
    if num = 0 then ""
    else toString (num * 10 / den) ++ fracDigitsF (num * 10 % den) den fuel

/-- Rendering of the `f64` model as a string (source: `num.to_string()` on
`f64`).  Integral values print with no decimal point, exactly as in Rust. -/
def fmtNum (q : ℚ) : String :=
  if q.den = 1 then toString q.num
  else
    (if q < 0 then "-" else "") ++ toString (q.num.natAbs / q.den) ++ "." ++
      fracDigitsF (q.num.natAbs % q.den) q.den 17

/-- Truncation of the `f64` model toward zero (Rust `as`-casts truncate). -/
def ratTrunc (q : ℚ) : ℤ := q.num.tdiv q.den

/-- Rust `f64 as usize`: truncate toward zero, negative values clamp to 0
(the saturation at `usize::MAX` is immaterial for `ℚ` inputs appearing
here). -/
def ratToUsize (q : ℚ) : ℕ := (ratTrunc q).toNat

/-- Rust `f64::round`: round half away from zero. -/
def ratRound (q : ℚ) : ℤ :=
  if 0 ≤ q then ratTrunc (q + 1 / 2) else -ratTrunc (1 / 2 - q)

/-- Rust `%` on `f64`: `a - b * trunc (a / b)` (with the `ℚ` convention
`a / 0 = 0`, so `a % 0` returns `a`; the Rust NaN result there is outside
the model and unused by the claims). -/
def ratRem (a b : ℚ) : ℚ := a - b * ratTrunc (a / b)

/-- `true` iff `c` is an ASCII decimal digit. -/
def isDigitC (c : Char) : Bool := '0' ≤ c && c ≤ '9'

/-- Numeric value of an ASCII digit. -/
def digitVal (c : Char) : Nat := c.toNat - '0'.toNat

/-- Reads a maximal run of digits: accumulated value, digit count, rest. -/
def readDigits (acc cnt : Nat) : List Char → Nat × Nat × List Char
  | [] => (acc, cnt, [])
  | c :: cs =>
    if isDigitC c then readDigits (acc * 10 + digitVal c) (cnt + 1) cs
    else (acc, cnt, c :: cs)

/-- The exact rational value of a decimal literal with sign `pos`, integer
part `ip`, fraction digits `fp` (`fc` of them) and decimal exponent `ex`:
`±(ip.fp) · 10^ex`, assembled without intermediate rational arithmetic. -/
def ratOfParts (pos : Bool) (ip fp fc : Nat) (ex : ℤ) : ℚ :=
  let numAbs : Nat := (ip * 10 ^ fc + fp) * 10 ^ ex.toNat
  let den : Nat := 10 ^ fc * 10 ^ (-ex).toNat
  mkRat (if pos then (numAbs : ℤ) else -(numAbs : ℤ)) den

/-- Parse of a decimal floating literal over the `ℚ` model of `f64`
(source: Rust `str::parse::<f64>`): optional sign, integer digits, optional
fraction, optional exponent, nothing left over.  The value is the exact
rational value of the literal (`f64` parsing rounds it to the nearest
double; no claim depends on that rounding).  The special forms `inf`/`NaN`
have no `ℚ` counterpart and are rejected; no claim involves them. -/
def parseNumChars (cs0 : List Char) : Option ℚ :=
  let sgn : Bool × List Char :=
    match cs0 with
    | '+' :: r => (true, r)
    | '-' :: r => (false, r)
    | _ => (true, cs0)
  let (ip, ic, cs1) := readDigits 0 0 sgn.2
  let fparsed : Nat × Nat × List Char :=
    match cs1 with
    | '.' :: r => readDigits 0 0 r
    | _ => (0, 0, cs1)
  let (fp, fc, cs2) := fparsed
  if ic + fc = 0 then none
  else
    match cs2 with
    | [] => some (ratOfParts sgn.1 ip fp fc 0)
    | e :: r =>
      if e == 'e' || e == 'E' then
        let esgn : Bool × List Char :=
          match r with
          | '+' :: r2 => (true, r2)
          | '-' :: r2 => (false, r2)
          | _ => (true, r)
        let (ev, ec, r2) := readDigits 0 0 esgn.2
        if ec = 0 then none
        else if r2 = [] then
          some (ratOfParts sgn.1 ip fp fc (if esgn.1 then (ev : ℤ) else -(ev : ℤ)))
        else none
      else none

/-- `str::parse::<f64>` on a string (see `parseNumChars`). -/
def parseNumber (s : String) : Option ℚ := parseNumChars s.data

/-- Rust `str::parse::<bool>`: exactly `"true"` / `"false"`. -/
def parseBool (s : String) : Option Bool :=
  if s = "true" then some true else if s = "false" then some false else none

mutual

/-- Diagnostic/trace rendering of a value (source: `Type::display`). -/
def Ty.display : Ty → String
  | .number n => fmtNum n
  | .str s => "(" ++ s ++ ")"
  | .bool b => if b then "true" else "false"
  | .list l => "[" ++ " ".intercalate (Ty.displayList l) ++ "]"
  | .error e => "error:" ++ e
  | .image _ => "\x7bImage\x7d"

/-- Renders each list member with `Ty.display` (source: the
`list.iter().map(|token| token.display()).collect()` inside
`Type::display`). -/
def Ty.displayList : List Ty → List String
  | [] => []
  | x :: xs => Ty.display x :: Ty.displayList xs

end

/-- to-Text coercion (source: `Type::get_string`). -/
def Ty.getString : Ty → String
  | .str s => s
  | .number i => fmtNum i
  | .bool b => if b then "true" else "false"
  | .list l => Ty.display (.list l)
  | .error e => "error:" ++ e
  | .image _ => "\x7bImage\x7d"

/-- to-Number coercion (source: `Type::get_number`). -/
def Ty.getNumber : Ty → ℚ
  | .str s => (parseNumber s).getD 0
  | .number i => i
  | .bool b => if b then 1 else 0
  | .list l => (l.length : ℚ)
  | .error e => (parseNumber e).getD 0
  | .image _ => 1

/-- to-Boolean coercion (source: `Type::get_bool`). -/
def Ty.getBool : Ty → Bool
  | .str s => !(s == "")
  | .number i => !(i == 0)
  | .bool b => b
  | .list l => !l.isEmpty
  | .error e => (parseBool e).getD false
  | .image _ => true

/-- to-List coercion (source: `Type::get_list`). -/
def Ty.getList : Ty → List Ty
  | .str s => s.data.map (fun c => Ty.str (String.singleton c))
  | .number i => [.number i]
  | .bool b => [.bool b]
  | .list l => l
  | .error e => [.error e]
  | .image _ => []

/-- Source: `Type::get_image` (the payload is opaque here). -/
def Ty.getImage : Ty → Mat
  | .image m => m
  | _ => Mat.default

/-- Tokenizer state (source: the locals of `Executor::analyze_syntax`):
accumulated tokens, current buffer, the `(`/`)`, `[`/`]`, `{`/`}` nesting
counters, the comment flag and the pending-escape flag. -/
structure TkSt where
  out : List String
  buffer : String
  brackets : Int
  parentheses : Int
  braces : Int
  hash : Bool
  escape : Bool
  deriving DecidableEq

/-- One character of the tokenizer state machine, mirroring the `match` arms
of `Executor::analyze_syntax` in source order. -/
def tokStep (s : TkSt) (c : Char) : TkSt :=
  if c == '\\' && !s.escape then { s with escape := true }
  else if c == '(' && !s.hash && !s.escape then
    { s with brackets := s.brackets + 1, buffer := s.buffer.push '(' }
  else if c == ')' && !s.hash && !s.escape then
    { s with brackets := s.brackets - 1, buffer := s.buffer.push ')' }
  else if c == '{' && !s.hash && s.brackets == 0 && !s.escape then
    { s with braces := s.braces + 1, buffer := s.buffer.push '{' }
  else if c == '}' && !s.hash && s.brackets == 0 && !s.escape then
    { s with braces := s.braces - 1, buffer := s.buffer.push '}' }
  else if c == '#' && !s.hash && !s.escape then
    { s with hash := true, buffer := s.buffer.push '#' }
  else if c == '#' && s.hash && !s.escape then
    { s with hash := false, buffer := s.buffer.push '#' }
  else if c == '[' && !s.hash && s.brackets == 0 && !s.escape then
    { s with parentheses := s.parentheses + 1, buffer := s.buffer.push '[' }
  else if c == ']' && !s.hash && s.brackets == 0 && !s.escape then
    { s with parentheses := s.parentheses - 1, buffer := s.buffer.push ']' }
  else if c == ' ' && !s.hash && s.parentheses == 0 && s.brackets == 0 &&
      !s.escape && s.braces == 0 then
    if s.buffer ≠ "" then { s with out := s.out ++ [s.buffer], buffer := "" }
    else s
  else
    let s1 :=
      if s.parentheses == 0 && s.brackets == 0 && !s.hash then
        if s.escape then
          if c == 'n' then { s with buffer := s.buffer ++ "\\n" }
          else if c == 't' then { s with buffer := s.buffer ++ "\\t" }
          else if c == 'r' then { s with buffer := s.buffer ++ "\\r" }
          else { s with buffer := s.buffer.push c }
        else { s with buffer := s.buffer.push c }
      else
        if s.escape then { s with buffer := (s.buffer.push '\\').push c }
        else { s with buffer := s.buffer.push c }
    { s1 with escape := false }

/-- Newline, carriage return, tab and full-width space become plain spaces
(source: the `code.replace` at the top of `analyze_syntax`). -/
def normalizeCode (code : String) : String :=
  String.mk (code.data.map fun c =>
    if c == '\n' || c == '\t' || c == '\r' || c == '　' then ' ' else c)

/-- The tokenizer (source: `Executor::analyze_syntax`; renamed because Lean
reserves that word's suffix).  It never emits an empty token. -/
def analyzeCode (code : String) : List String :=
  let st := (normalizeCode code).data.foldl tokStep ⟨[], "", 0, 0, 0, false, false⟩
  if st.buffer ≠ "" then st.out ++ [st.buffer] else st.out

/-- State of the text-literal unescape pass (source: the locals of the string
block inside `evaluate_program`): same machine as the tokenizer but with no
brace counter and no token separation. -/
structure UnSt where
  buffer : String
  brackets : Int
  parentheses : Int
  hash : Bool
  escape : Bool
  deriving DecidableEq

/-- One character of the text-literal unescape machine, mirroring the inner
`match` of the `(`…`)` arm of `evaluate_program` in source order. -/
def unStep (s : UnSt) (c : Char) : UnSt :=
  if c == '\\' && !s.escape then { s with escape := true }
  else if c == '(' && !s.hash && !s.escape then
    { s with brackets := s.brackets + 1, buffer := s.buffer.push '(' }
  else if c == ')' && !s.hash && !s.escape then
    { s with brackets := s.brackets - 1, buffer := s.buffer.push ')' }
  else if c == '#' && !s.hash && !s.escape then
    { s with hash := true, buffer := s.buffer.push '#' }
  else if c == '#' && s.hash && !s.escape then
    { s with hash := false, buffer := s.buffer.push '#' }
  else if c == '[' && !s.hash && s.brackets == 0 && !s.escape then
    { s with parentheses := s.parentheses + 1, buffer := s.buffer.push '[' }
  else if c == ']' && !s.hash && s.brackets == 0 && !s.escape then
    { s with parentheses := s.parentheses - 1, buffer := s.buffer.push ']' }
  else
    let s1 :=
      if s.parentheses == 0 && s.brackets == 0 && !s.hash then
        if s.escape then
          if c == 'n' then { s with buffer := s.buffer ++ "\\n" }
          else if c == 't' then { s with buffer := s.buffer ++ "\\t" }
          else if c == 'r' then { s with buffer := s.buffer ++ "\\r" }
          else { s with buffer := s.buffer.push c }
        else { s with buffer := s.buffer.push c }
      else
        if s.escape then { s with buffer := (s.buffer.push '\\').push c }
        else { s with buffer := s.buffer.push c }
    { s1 with escape := false }

/-- Runs the unescape machine over the interior of a `(`…`)` token. -/
def unescapeChars (cs : List Char) : String :=
  (cs.foldl unStep ⟨"", 0, 0, false, false⟩).buffer

/-- The interpreter state (source: `struct Executor`): operand stack
(HEAD = top), variable memory, execution mode. -/
structure Executor where
  stack : List Ty
  memory : List (String × Ty)
  mode : Mode

/-- Source: `Executor::pop_stack`.  Popping an empty stack substitutes an
empty Text value and leaves the state unchanged (the Rust code additionally
logs a diagnostic in Debug mode, which has no semantic effect). -/
def popStack (e : Executor) : Ty × Executor :=
  match e.stack with
  | [] => (.str "", e)
  | v :: rest => (v, { e with stack := rest })

/-- Insert-or-overwrite on the variable memory (source: the
`self.memory.entry(..).and_modify(..).or_insert(..)` idiom and
`HashMap::insert`). -/
def memSet : List (String × Ty) → String → Ty → List (String × Ty)
  | [], k, v => [(k, v)]
  | (k', v') :: rest, k, v =>
    if k' == k then (k', v) :: rest else (k', v') :: memSet rest k v

/-- Key removal (source: `HashMap::remove`; absent keys are a no-op). -/
def memDel (m : List (String × Ty)) (k : String) : List (String × Ty) :=
  m.eraseP (fun p => p.1 == k)

/-- How a fueled run can stop short of an ordinary result. -/
inductive RunErr where
  /-- Fuel ran out: the Rust code is still running at this depth/length. -/
  | fuel
  /-- The Rust code panics here (process abort). -/
  | panic
  /-- The `exit` command: process termination with a status code. -/
  | exited (code : ℤ)
  /-- A command whose behaviour depends on the outside world (I/O,
  randomness, time, OpenCV) or on unmodelled `f64` operations. -/
  | unmodeled
  deriving DecidableEq

/-- Result of a fueled evaluation step. -/
abbrev Res := Except RunErr Executor

/-- The loop of the `range` command (source: the `while i < max` loop):
pushes `i` and steps `i` to `step + i`; `none` when `fuel` iterations do not
finish. -/
def rangeLoop : Nat → ℚ → ℚ → ℚ → Option (List ℚ)
  | 0, _, _, _ => none
  | n + 1, i, mx, step =>
    if i < mx then (rangeLoop n (step + i) mx step).map (fun l => i :: l)
    else some []

/-- `Vec::insert` at an index `≤` length (the caller guards; past the length
Rust panics, which the caller maps to `RunErr.panic`). -/
def insertAt : Nat → Ty → List Ty → List Ty
  | 0, v, l => v :: l
  | _ + 1, v, [] => [v]
  | n + 1, v, x :: xs => x :: insertAt n v xs

/-- Rust `str::repeat`. -/
def strRepeat (s : String) (n : Nat) : String :=
  String.join (List.replicate n s)

/-- Rust `str::contains` on a substring pattern, over character lists
(byte-wise substring search and character-wise search agree on valid
UTF-8). -/
def containsSeq (pat : List Char) : List Char → Bool
  | [] => pat.isEmpty
  | c :: cs => pat.isPrefixOf (c :: cs) || containsSeq pat cs

/-- The loop of the `while` command (source: the `while { ..cond.. } { ..body.. }`
in `execute_command`), parametric in the program evaluator `evalP` and fueled
by the iteration count: re-evaluates `cond` before every iteration, pops the
result, stops when it coerces to `false`. -/
def whileLoop (evalP : Executor → String → Res) : Nat → Executor → String → String → Res
  | 0, _, _, _ => .error .fuel
  | m + 1, e, code, cond =>
    match evalP e cond with
    | .ok e1 =>
      let (v, e2) := popStack e1
      if v.getBool then
        match evalP e2 code with
        | .ok e3 => whileLoop evalP m e3 code cond
        | .error err => .error err
      else .ok e2
    | .error err => .error err

/-- The loop of the `for` command: bind the loop variable to each element in
list order and evaluate the code once per element. -/
def forLoop (evalP : Executor → String → Res) (vars code : String) :
    Executor → List Ty → Res
  | e, [] => .ok e
  | e, x :: xs =>
    match evalP { e with memory := memSet e.memory vars x } code with
    | .ok e2 => forLoop evalP vars code e2 xs
    | .error err => .error err

/-- The loop of the `map` command: like `for`, additionally popping and
collecting one result per iteration. -/
def mapLoop (evalP : Executor → String → Res) (vars code : String) :
    Executor → List Ty → Except RunErr (Executor × List Ty)
  | e, [] => .ok (e, [])
  | e, x :: xs =>
    match evalP { e with memory := memSet e.memory vars x } code with
    | .ok e2 =>
      let (v, e3) := popStack e2
      match mapLoop evalP vars code e3 xs with
      | .ok (e4, rest) => .ok (e4, v :: rest)
      | .error err => .error err
    | .error err => .error err

/-- The loop of the `filter` command: keeps the element itself when the
iteration's popped result coerces to `true`. -/
def filterLoop (evalP : Executor → String → Res) (vars code : String) :
    Executor → List Ty → Except RunErr (Executor × List Ty)
  | e, [] => .ok (e, [])
  | e, x :: xs =>
    match evalP { e with memory := memSet e.memory vars x } code with
    | .ok e2 =>
      let (v, e3) := popStack e2
      match filterLoop evalP vars code e3 xs with
      | .ok (e4, rest) => .ok (e4, if v.getBool then x :: rest else rest)
      | .error err => .error err
    | .error err => .error err

/-- The loop of the `reduce` command: binds the iteration variable, evaluates
the code, pops the result and re-binds the accumulator variable. -/
def reduceLoop (evalP : Executor → String → Res) (acc now code : String) :
    Executor → List Ty → Res
  | e, [] => .ok e
  | e, x :: xs =>
    match evalP { e with memory := memSet e.memory now x } code with
    | .ok e2 =>
      let (result, e3) := popStack e2
      reduceLoop evalP acc now code
        { e3 with memory := memSet e3.memory acc result } xs
    | .error err => .error err

/-- The command table (source: the big `match` of `Executor::execute_command`,
arm for arm in source order).  `evalP` is the recursive program evaluator the
control-flow commands re-enter; `lfuel` bounds the internal `while`/`range`
loops.  Commands whose behaviour depends on the outside world (I/O,
randomness, time, OpenCV) or on unmodelled `f64` operations stop with
`RunErr.unmodeled`; everything else is modelled exactly. -/
def executeCommand (evalP : Executor → String → Res) (lfuel : Nat)
    (e : Executor) (command : String) : Res :=
  if command == "add" then
    let (b, e1) := popStack e
    let (a, e2) := popStack e1
    .ok { e2 with stack := .number (a.getNumber + b.getNumber) :: e2.stack }
  else if command == "sub" then
    let (b, e1) := popStack e
    let (a, e2) := popStack e1
    .ok { e2 with stack := .number (a.getNumber - b.getNumber) :: e2.stack }
  else if command == "mul" then
    let (b, e1) := popStack e
    let (a, e2) := popStack e1
    .ok { e2 with stack := .number (a.getNumber * b.getNumber) :: e2.stack }
  else if command == "div" then
    let (b, e1) := popStack e
    let (a, e2) := popStack e1
    .ok { e2 with stack := .number (a.getNumber / b.getNumber) :: e2.stack }
  else if command == "mod" then
    let (b, e1) := popStack e
    let (a, e2) := popStack e1
    .ok { e2 with stack := .number (ratRem a.getNumber b.getNumber) :: e2.stack }
  else if command == "pow" then .error .unmodeled
  else if command == "round" then
    let (a, e1) := popStack e
    .ok { e1 with stack := .number ((ratRound a.getNumber : ℤ) : ℚ) :: e1.stack }
  else if command == "sin" then .error .unmodeled
  else if command == "cos" then .error .unmodeled
  else if command == "tan" then .error .unmodeled
  else if command == "exp" then .error .unmodeled
  else if command == "and" then
    let (b, e1) := popStack e
    let (a, e2) := popStack e1
    .ok { e2 with stack := .bool (a.getBool && b.getBool) :: e2.stack }
  else if command == "or" then
    let (b, e1) := popStack e
    let (a, e2) := popStack e1
    .ok { e2 with stack := .bool (a.getBool || b.getBool) :: e2.stack }
  else if command == "not" then
    let (b, e1) := popStack e
    .ok { e1 with stack := .bool (!b.getBool) :: e1.stack }
  else if command == "equal" then
    let (b, e1) := popStack e
    let (a, e2) := popStack e1
    .ok { e2 with stack := .bool (a.getString == b.getString) :: e2.stack }
  else if command == "less" then
    let (b, e1) := popStack e
    let (a, e2) := popStack e1
    .ok { e2 with stack := .bool (decide (a.getNumber < b.getNumber)) :: e2.stack }
  else if command == "rand" then .error .unmodeled
  else if command == "shuffle" then .error .unmodeled
  else if command == "repeat" then
    let (count, e1) := popStack e
    let (text, e2) := popStack e1
    .ok { e2 with stack := .str (strRepeat text.getString (ratToUsize count.getNumber)) :: e2.stack }
  else if command == "decode" then
    let (code, e1) := popStack e
    let cp := min (ratToUsize code.getNumber) 4294967295
    if cp.isValidChar then
      .ok { e1 with stack := .str (String.singleton (Char.ofNat cp)) :: e1.stack }
    else
      .ok { e1 with stack := .error "number-decoding" :: e1.stack }
  else if command == "encode" then
    let (s, e1) := popStack e
    match s.getString.data with
    | c :: _ => .ok { e1 with stack := .number ((c.toNat : ℚ)) :: e1.stack }
    | [] => .ok { e1 with stack := .error "string-encoding" :: e1.stack }
  else if command == "concat" then
    let (b, e1) := popStack e
    let (a, e2) := popStack e1
    .ok { e2 with stack := .str (a.getString ++ b.getString) :: e2.stack }
  else if command == "replace" then
    let (until_, e1) := popStack e
    let (before, e2) := popStack e1
    let (text, e3) := popStack e2
    .ok { e3 with stack := .str (text.getString.replace before.getString until_.getString) :: e3.stack }
  else if command == "split" then
    let (key, e1) := popStack e
    let (text, e2) := popStack e1
    .ok { e2 with stack := .list ((text.getString.splitOn key.getString).map Ty.str) :: e2.stack }
  else if command == "case" then
    let (types, e1) := popStack e
    let (text, e2) := popStack e1
    let t := text.getString
    .ok { e2 with stack := .str (if types.getString == "lower" then t.toLower
      else if types.getString == "upper" then t.toUpper else t) :: e2.stack }
  else if command == "join" then
    let (key, e1) := popStack e
    let (lst, e2) := popStack e1
    .ok { e2 with stack := .str (String.intercalate key.getString (lst.getList.map Ty.getString)) :: e2.stack }
  else if command == "find" then
    let (word, e1) := popStack e
    let (text, e2) := popStack e1
    .ok { e2 with stack := .bool (containsSeq word.getString.data text.getString.data) :: e2.stack }
  else if command == "regex" then .error .unmodeled
  else if command == "write-file" then .error .unmodeled
  else if command == "read-file" then .error .unmodeled
  else if command == "input" then .error .unmodeled
  else if command == "print" then
    let (_, e1) := popStack e
    .ok e1
  else if command == "println" then
    let (_, e1) := popStack e
    .ok e1
  else if command == "args-cmd" then .error .unmodeled
  else if command == "eval" then
    let (code, e1) := popStack e
    evalP e1 code.getString
  else if command == "if" then
    let (condition, e1) := popStack e
    let (codeElse, e2) := popStack e1
    let (codeIf, e3) := popStack e2
    if condition.getBool then evalP e3 codeIf.getString
    else evalP e3 codeElse.getString
  else if command == "while" then
    let (cond, e1) := popStack e
    let (code, e2) := popStack e1
    whileLoop evalP lfuel e2 code.getString cond.getString
  else if command == "thread" then
    let (_, e1) := popStack e
    .ok e1
  else if command == "exit" then
    let (status, _) := popStack e
    .error (.exited (ratTrunc status.getNumber))
  else if command == "get" then
    let (index, e1) := popStack e
    let (lst, e2) := popStack e1
    let i := ratToUsize index.getNumber
    let l := lst.getList
    if h : l.length > i then
      .ok { e2 with stack := l.get ⟨i, h⟩ :: e2.stack }
    else
      .ok { e2 with stack := .error "index-out-range" :: e2.stack }
  else if command == "set" then
    let (value, e1) := popStack e
    let (index, e2) := popStack e1
    let (lst, e3) := popStack e2
    let i := ratToUsize index.getNumber
    let l := lst.getList
    if l.length > i then
      .ok { e3 with stack := .list (l.set i value) :: e3.stack }
    else
      .ok { e3 with stack := .error "index-out-range" :: e3.stack }
  else if command == "del" then
    let (index, e1) := popStack e
    let (lst, e2) := popStack e1
    let i := ratToUsize index.getNumber
    let l := lst.getList
    if l.length > i then
      .ok { e2 with stack := .list (l.eraseIdx i) :: e2.stack }
    else
      .ok { e2 with stack := .error "index-out-range" :: e2.stack }
  else if command == "append" then
    let (data, e1) := popStack e
    let (lst, e2) := popStack e1
    .ok { e2 with stack := .list (lst.getList ++ [data]) :: e2.stack }
  else if command == "insert" then
    let (data, e1) := popStack e
    let (index, e2) := popStack e1
    let (lst, e3) := popStack e2
    let i := ratToUsize index.getNumber
    let l := lst.getList
    if i ≤ l.length then
      .ok { e3 with stack := .list (insertAt i data l) :: e3.stack }
    else .error .panic
  else if command == "index" then
    let (target, e1) := popStack e
    let (lst, e2) := popStack e1
    match (lst.getList).findIdx? (fun item => target.getString == item.getString) with
    | some i => .ok { e2 with stack := .number (i : ℚ) :: e2.stack }
    | none => .ok { e2 with stack := .error "item-not-found" :: e2.stack }
  else if command == "sort" then
    let (lst, e1) := popStack e
    .ok { e1 with stack :=
      (Ty.list (((lst.getList.map Ty.getString).mergeSort (fun a b => a ≤ b)).map Ty.str)) :: e1.stack }
  else if command == "reverse" then
    let (lst, e1) := popStack e
    .ok { e1 with stack := .list (lst.getList.reverse) :: e1.stack }
  else if command == "for" then
    let (code, e1) := popStack e
    let (vars, e2) := popStack e1
    let (lst, e3) := popStack e2
    forLoop evalP vars.getString code.getString e3 lst.getList
  else if command == "range" then
    let (step, e1) := popStack e
    let (mx, e2) := popStack e1
    let (mn, e3) := popStack e2
    match rangeLoop lfuel mn.getNumber mx.getNumber step.getNumber with
    | some l => .ok { e3 with stack := .list (l.map Ty.number) :: e3.stack }
    | none => .error .fuel
  else if command == "len" then
    let (data, e1) := popStack e
    .ok { e1 with stack := .number ((data.getList.length : ℚ)) :: e1.stack }
  else if command == "map" then
    let (code, e1) := popStack e
    let (vars, e2) := popStack e1
    let (lst, e3) := popStack e2
    match mapLoop evalP vars.getString code.getString e3 lst.getList with
    | .ok (e4, res) => .ok { e4 with stack := .list res :: e4.stack }
    | .error err => .error err
  else if command == "filter" then
    let (code, e1) := popStack e
    let (vars, e2) := popStack e1
    let (lst, e3) := popStack e2
    match filterLoop evalP vars.getString code.getString e3 lst.getList with
    | .ok (e4, res) => .ok { e4 with stack := .list res :: e4.stack }
    | .error err => .error err
  else if command == "reduce" then
    let (code, e1) := popStack e
    let (now, e2) := popStack e1
    let (init, e3) := popStack e2
    let (acc, e4) := popStack e3
    let (lst, e5) := popStack e4
    let accName := acc.getString
    match reduceLoop evalP accName now.getString code.getString
        { e5 with memory := memSet e5.memory accName init } lst.getList with
    | .ok e6 =>
      let result := (e6.memory.lookup accName).getD (.str "")
      .ok { e6 with stack := result :: e6.stack,
                    memory := memSet e6.memory accName (.str "") }
    | .error err => .error err
  else if command == "pop" then
    .ok (popStack e).2
  else if command == "size-stack" then
    .ok { e with stack := .number ((e.stack.length : ℚ)) :: e.stack }
  else if command == "get-stack" then
    .ok { e with stack := .list (e.stack.reverse) :: e.stack }
  else if command == "var" then
    let (name, e1) := popStack e
    let (data, e2) := popStack e1
    .ok { e2 with memory := memSet e2.memory name.getString data }
  else if command == "type" then
    let (v, e1) := popStack e
    .ok { e1 with stack := .str (match v with
      | .number _ => "number"
      | .str _ => "string"
      | .bool _ => "bool"
      | .list _ => "list"
      | .error _ => "error"
      | .image _ => "image") :: e1.stack }
  else if command == "cast" then
    let (types, e1) := popStack e
    let (value, e2) := popStack e1
    .ok { e2 with stack := (if types.getString == "number" then .number value.getNumber
      else if types.getString == "string" then .str value.getString
      else if types.getString == "bool" then .bool value.getBool
      else if types.getString == "list" then .list value.getList
      else if types.getString == "error" then .error value.getString
      else value) :: e2.stack }
  else if command == "mem" then
    .ok { e with stack := .list (e.memory.map (fun p => Ty.str p.1)) :: e.stack }
  else if command == "free" then
    let (name, e1) := popStack e
    .ok { e1 with memory := memDel e1.memory name.getString }
  else if command == "copy" then
    let (data, e1) := popStack e
    .ok { e1 with stack := data :: data :: e1.stack }
  else if command == "swap" then
    let (b, e1) := popStack e
    let (a, e2) := popStack e1
    .ok { e2 with stack := a :: b :: e2.stack }
  else if command == "now-time" then .error .unmodeled
  else if command == "sleep" then
    let (_, e1) := popStack e
    .ok e1
  else if command == "open-image" then .error .unmodeled
  else if command == "show-image" then .error .unmodeled
  else if command == "to-grayscale" then .error .unmodeled
  else if command == "invert-color" then .error .unmodeled
  else if command == "flip-image" then .error .unmodeled
  else if command == "gaussian-blur" then .error .unmodeled
  else if command == "resize-image" then .error .unmodeled
  else if command == "edge-detect" then .error .unmodeled
  else if command == "color-map" then .error .unmodeled
  else if command == "morphology-operation" then .error .unmodeled
  else if command == "histogram-equalization" then .error .unmodeled
  else if command == "save-image" then .error .unmodeled
  else if command == "to-sharpe" then .error .unmodeled
  else
    .ok { e with stack := .str command :: e.stack }

/-- One token of the evaluation loop (source: the body of the `for token in
syntax` loop of `Executor::evaluate_program`), in the exact source order:
number literal, boolean literal, `(`…`)` text literal, `[`…`]` list literal,
`error:` literal, variable lookup, `#`…`#` comment, command dispatch. -/
def stepToken (evalP : Executor → String → Res) (lfuel : Nat)
    (e : Executor) (token : String) : Res :=
  match parseNumber token with
  | some i => .ok { e with stack := .number i :: e.stack }
  | none =>
    if token == "true" || token == "false" then
      .ok { e with stack := .bool (token == "true") :: e.stack }
    else
      match token.data with
      | [] => .error .panic
      | c0 :: cs =>
        let cl := (c0 :: cs).getLast (List.cons_ne_nil c0 cs)
        if c0 == '(' && cl == ')' then
          .ok { e with stack := .str (unescapeChars cs.dropLast) :: e.stack }
        else if c0 == '[' && cl == ']' then
          match evalP e (String.mk cs.dropLast) with
          | .ok e2 =>
            let k := e2.stack.length - e.stack.length
            .ok { e2 with stack := .list ((e2.stack.take k).reverse) :: e2.stack.drop k }
          | .error err => .error err
        else if "error:".data.isPrefixOf token.data then
          .ok { e with stack := .error (token.replace "error:" "") :: e.stack }
        else
          match e.memory.lookup token with
          | some v => .ok { e with stack := v :: e.stack }
          | none =>
            if c0 == '#' && cl == '#' then .ok e
            else executeCommand evalP lfuel e token

/-- The fueled program evaluator (source: `Executor::evaluate_program`):
tokenize, then run the token loop against the same stack and memory.  The
fuel strictly decreases into every nested program evaluation; loop fuel for
`while`/`range` at depth `n + 1` is `n`. -/
def evalProgram : Nat → Executor → String → Res
  | 0, _, _ => .error .fuel
  | n + 1, e, code => (analyzeCode code).foldlM (stepToken (evalProgram n) n) e

/-- All names the command table matches (the literal arms of the `match` in
`Executor::execute_command`, in source order); any other token falls through
to the push-as-Text arm. -/
def commandNames : List String :=
  ["add", "sub", "mul", "div", "mod", "pow", "round", "sin", "cos", "tan",
   "exp", "and", "or", "not", "equal", "less", "rand", "shuffle", "repeat",
   "decode", "encode", "concat", "replace", "split", "case", "join", "find",
   "regex", "write-file", "read-file", "input", "print", "println",
   "args-cmd", "eval", "if", "while", "thread", "exit", "get", "set", "del",
   "append", "insert", "index", "sort", "reverse", "for", "range", "len",
   "map", "filter", "reduce", "pop", "size-stack", "get-stack", "var",
   "type", "cast", "mem", "free", "copy", "swap", "now-time", "sleep",
   "open-image", "show-image", "to-grayscale", "invert-color", "flip-image",
   "gaussian-blur", "resize-image", "edge-detect", "color-map",
   "morphology-operation", "histogram-equalization", "save-image",
   "to-sharpe"]

/-- The commands whose behaviour is fully modelled here (everything except
the I/O / randomness / time / OpenCV commands, the unmodelled `f64`
transcendentals and `exit`, which terminates the process by design). -/
def modeledCommands : List String :=
  ["add", "sub", "mul", "div", "mod", "round", "and", "or", "not", "equal",
   "less", "repeat", "decode", "encode", "concat", "replace", "split",
   "case", "join", "find", "print", "println", "eval", "if", "while",
   "thread", "get", "set", "del", "append", "insert", "index", "sort",
   "reverse", "for", "range", "len", "map", "filter", "reduce", "pop",
   "size-stack", "get-stack", "var", "type", "cast", "mem", "free", "copy",
   "swap", "sleep"]

/-- The arithmetic sequence `mn, mn + st, …` with `k` terms. -/
def mkRangeQ (mn st : ℚ) (k : ℕ) : List ℚ :=
  (List.range k).map (fun i : ℕ => mn + st * (i : ℚ))

/-- "The `range` command applied to `min = 0`, `max = 1`, `step = 0` runs out
of fuel at every fuel bound" — i.e. the Rust `while i < max` loop never
terminates on this input. -/
def rangeCmdNoProgressStuck : Prop :=
  ∀ lfuel : Nat,
    executeCommand (evalProgram 0) lfuel
      ⟨[.number 0, .number 1, .number 0], [], .Script⟩ "range" = .error .fuel

/-- `true` iff the token's first character is `(` and its last is `)` (the
guard of the text-literal arm of `evaluate_program`; `false` on the empty
token, where the Rust `chars[0]` would panic). -/
def parenTok (t : String) : Bool :=
  match t.data with
  | [] => false
  | c0 :: cs => c0 == '(' && (c0 :: cs).getLast (List.cons_ne_nil c0 cs) == ')'

/-- `true` iff the token's first character is `[` and its last is `]` (the
guard of the list-literal arm of `evaluate_program`). -/
def bracketTok (t : String) : Bool :=
  match t.data with
  | [] => false
  | c0 :: cs => c0 == '[' && (c0 :: cs).getLast (List.cons_ne_nil c0 cs) == ']'

/-- `true` iff the token's first and last characters are `#` (the comment
arm's guard in `evaluate_program`). -/
def hashTok (t : String) : Bool :=
  match t.data with
  | [] => false
  | c0 :: cs => c0 == '#' && (c0 :: cs).getLast (List.cons_ne_nil c0 cs) == '#'

/-- `Ty.displayList` is just `List.map Ty.display`. -/
theorem displayList_eq_map : ∀ l : List Ty, Ty.displayList l = l.map Ty.display
  | [] => rfl
  | x :: xs => by rw [Ty.displayList, displayList_eq_map xs, List.map_cons]

/-- C2.  The coercion functions realize the §4.2 table: on Text, to-Number is
the numeric parse with 0 on failure (never an Error), to-Boolean is false
exactly on the empty string, to-List has one single-character Text per
character; on List, to-Number is the element count.  (Each function is a
total Lean function over every `Ty` variant, which is the totality half of
the claim.) -/
theorem coercions_follow_table :
    (∀ s : String, Ty.getNumber (.str s) = (parseNumber s).getD 0)
    ∧ (∀ s : String, Ty.getBool (.str s) = false ↔ s = "")
    ∧ (∀ s : String,
        Ty.getList (.str s) = s.data.map (fun c => Ty.str (String.singleton c))
        ∧ (Ty.getList (.str s)).length = s.data.length)
    ∧ (∀ l : List Ty, Ty.getNumber (.list l) = (l.length : ℚ)) := by
  refine ⟨fun s => rfl, fun s => ?_, fun s => ⟨rfl, by simp [Ty.getList]⟩,
    fun l => rfl⟩
  simp [Ty.getBool]

/-- C8, counterexample: on the Error variant, display and to-Text coincide
(both are `"error:" ++ tag`), so display does not differ from to-Text there. -/
theorem display_error_equals_toText :
    Ty.display (.error "x") = Ty.getString (.error "x") := rfl

/-- C8, amended: display differs from to-Text exactly on the Text variant
(where it adds parentheses); on every other variant — including Error —
display equals to-Text. -/
theorem display_differs_only_on_text :
    (∀ s : String, Ty.display (.str s) = "(" ++ s ++ ")"
      ∧ Ty.display (.str s) ≠ Ty.getString (.str s))
    ∧ (∀ v : Ty, (∀ s, v ≠ .str s) → Ty.display v = Ty.getString v) := by
  constructor
  · intro s
    refine ⟨rfl, fun h => ?_⟩
    have hlen := congrArg String.length h
    simp only [Ty.display, Ty.getString, String.length_append] at hlen
    have h1 : "(".length = 1 := rfl
    have h2 : ")".length = 1 := rfl
    rw [h1, h2] at hlen
    omega
  · intro v h
    cases v with
    | number n => rfl
    | str s => exact absurd rfl (h s)
    | bool b => rfl
    | list l => rfl
    | error e => rfl
    | image m => rfl

/-- Witness for C8's amended theorem at the Number variant. -/
theorem display_differs_only_on_text_witness :
    Ty.display (.number 3) = Ty.getString (.number 3) :=
  display_differs_only_on_text.2 (.number 3) (fun _ h => Ty.noConfusion h)

/-- C10.  The `equal` command pops `b` then `a` and pushes
`Bool (to-Text a = to-Text b)`; string coercion makes cross-variant pairs
such as `Number 1` / `Text "1"` and `Boolean true` / `Text "true"` compare
equal. -/
theorem equal_compares_by_toText :
    (∀ (a b : Ty) (rest : List Ty) (mem : List (String × Ty)) (mode : Mode)
        (evalP : Executor → String → Res) (lfuel : Nat),
      executeCommand evalP lfuel ⟨b :: a :: rest, mem, mode⟩ "equal"
        = .ok ⟨.bool (a.getString == b.getString) :: rest, mem, mode⟩)
    ∧ executeCommand (evalProgram 0) 0 ⟨[.str "1", .number 1], [], .Script⟩ "equal"
        = .ok ⟨[.bool true], [], .Script⟩
    ∧ executeCommand (evalProgram 0) 0 ⟨[.str "true", .bool true], [], .Script⟩ "equal"
        = .ok ⟨[.bool true], [], .Script⟩ :=
  ⟨fun _ _ _ _ _ _ _ => rfl, rfl, rfl⟩

/-- C1.  Stack underflow never fails the process: popping an empty stack
substitutes an empty Text value and leaves the state untouched, and every
fully modelled command still produces an ordinary result when run on an
empty stack (no crash or abort arises from underflow alone). -/
theorem underflow_never_fails :
    (∀ e : Executor, e.stack = [] → popStack e = (.str "", e))
    ∧ (∀ c ∈ modeledCommands, ∀ (mem : List (String × Ty)) (mode : Mode),
        ∃ e' : Executor,
          executeCommand (evalProgram 8) 8 ⟨[], mem, mode⟩ c = .ok e') := by
  constructor
  · intro e h
    cases e with
    | mk stack memory mode => cases h; rfl
  · intro c hc mem mode
    fin_cases hc <;> exact ⟨_, rfl⟩

/-- Witness for C1 at the empty interpreter state and the `add` command. -/
theorem underflow_never_fails_witness :
    popStack ⟨[], [], .Script⟩ = (.str "", ⟨[], [], .Script⟩)
    ∧ ∃ e', executeCommand (evalProgram 8) 8 ⟨[], [], .Script⟩ "add" = .ok e' :=
  ⟨underflow_never_fails.1 ⟨[], [], .Script⟩ rfl,
   underflow_never_fails.2 "add" (by decide) [] .Script⟩

/-- A token matching no command-table name falls through to the final arm and
is pushed as a Text value. -/
theorem executeCommand_unknown (evalP : Executor → String → Res) (lfuel : Nat)
    (e : Executor) (c : String) (hc : c ∉ commandNames) :
    executeCommand evalP lfuel e c = .ok { e with stack := .str c :: e.stack } := by
  have hB : ∀ nm, nm ∈ commandNames → (c == nm) = false := fun nm hnm =>
    beq_eq_false_iff_ne.mpr fun hEq => hc (hEq ▸ hnm)
  simp only [executeCommand]
  simp [hB, commandNames]

/-- C3.  Dispatch precedence for a token that is no number, boolean,
parenthesized text, bracketed list or error literal: a token bound in the
Environment pushes a copy of the bound value (variables shadow commands);
only otherwise is the command table consulted (comment tokens are skipped);
and a consulted token matching no command is pushed as literal Text instead
of erroring. -/
theorem dispatch_precedence (evalP : Executor → String → Res) (lfuel : Nat)
    (e : Executor) (t : String)
    (hne : t ≠ "")
    (hnum : parseNumber t = none)
    (htrue : t ≠ "true") (hfalse : t ≠ "false")
    (hparen : parenTok t = false) (hbracket : bracketTok t = false)
    (herror : "error:".data.isPrefixOf t.data = false) :
    (∀ v, e.memory.lookup t = some v →
        stepToken evalP lfuel e t = .ok { e with stack := v :: e.stack })
    ∧ (e.memory.lookup t = none → hashTok t = false →
        stepToken evalP lfuel e t = executeCommand evalP lfuel e t)
    ∧ (t ∉ commandNames →
        executeCommand evalP lfuel e t = .ok { e with stack := .str t :: e.stack }) := by
  obtain ⟨c0, cs, ht⟩ : ∃ c0 cs, t.data = c0 :: cs := by
    cases ht : t.data with
    | nil => exact absurd (String.ext ht) hne
    | cons c0 cs => exact ⟨c0, cs, rfl⟩
  have hbt : (t == "true") = false := beq_eq_false_iff_ne.mpr htrue
  have hbf : (t == "false") = false := beq_eq_false_iff_ne.mpr hfalse
  simp only [parenTok, ht] at hparen
  simp only [bracketTok, ht] at hbracket
  rw [ht] at herror
  have hstep : stepToken evalP lfuel e t =
      (match e.memory.lookup t with
       | some v => .ok { e with stack := v :: e.stack }
       | none =>
         if c0 == '#' && (c0 :: cs).getLast (List.cons_ne_nil c0 cs) == '#' then
           .ok e
         else executeCommand evalP lfuel e t) := by
    simp only [stepToken, hnum, hbt, hbf, Bool.or_self, Bool.false_eq_true,
      if_false, ht, hparen, hbracket, herror]
  refine ⟨fun v hv => ?_, fun hv hh => ?_, fun hcmd => ?_⟩
  · rw [hstep, hv]
  · simp only [hashTok, ht] at hh
    rw [hstep, hv, hh]
    simp
  · exact executeCommand_unknown evalP lfuel e t hcmd

/-- Witness for C3 at the token `foo`: bound in memory it pushes the bound
value; unbound it reaches the command table and, matching no command, is
pushed as literal Text. -/
theorem dispatch_precedence_witness :
    stepToken (evalProgram 0) 0 ⟨[], [("foo", .number 5)], .Script⟩ "foo"
        = .ok ⟨[.number 5], [("foo", .number 5)], .Script⟩
    ∧ stepToken (evalProgram 0) 0 ⟨[], [], .Script⟩ "foo"
        = executeCommand (evalProgram 0) 0 ⟨[], [], .Script⟩ "foo"
    ∧ executeCommand (evalProgram 0) 0 ⟨[], [], .Script⟩ "foo"
        = .ok ⟨[.str "foo"], [], .Script⟩ :=
  ⟨(dispatch_precedence (evalProgram 0) 0 ⟨[], [("foo", .number 5)], .Script⟩ "foo"
      (by decide) (by decide) (by decide) (by decide) (by decide) (by decide)
      (by decide)).1 (.number 5) rfl,
   (dispatch_precedence (evalProgram 0) 0 ⟨[], [], .Script⟩ "foo"
      (by decide) (by decide) (by decide) (by decide) (by decide) (by decide)
      (by decide)).2.1 rfl (by decide),
   (dispatch_precedence (evalProgram 0) 0 ⟨[], [], .Script⟩ "foo"
      (by decide) (by decide) (by decide) (by decide) (by decide) (by decide)
      (by decide)).2.2 (by decide)⟩

/-- A token that starts with `[` never parses as a number. -/
theorem parseNumChars_bracket (rest : List Char) :
    parseNumChars ('[' :: rest) = none := rfl

/-- `getLast` of a cons ending in `a` is `a`. -/
theorem getLast_cons_concat {α : Type} :
    ∀ (l : List α) (c a : α) (h : c :: (l ++ [a]) ≠ []),
      (c :: (l ++ [a])).getLast h = a
  | [], _, _, _ => rfl
  | x :: xs, c, a, _ => by
    show (c :: x :: (xs ++ [a])).getLast _ = a
    rw [List.getLast_cons (by simp)]
    exact getLast_cons_concat xs x a (by simp)

/-- C4.  A `[`…`]` token evaluates its interior as a full program against the
same stack and memory; the values the interior net-pushed (the stack-length
delta) are removed and collected, in push order, into a single List pushed
in their place. -/
theorem bracket_collects_net_pushes (n lfuel : Nat) (e e' : Executor)
    (inner : String) (extra : List Ty)
    (hrun : evalProgram n e inner = .ok e')
    (hstack : e'.stack = extra ++ e.stack) :
    stepToken (evalProgram n) lfuel e ("[" ++ inner ++ "]")
      = .ok { e' with stack := .list extra.reverse :: e.stack } := by
  have hdata : ("[" ++ inner ++ "]").data = '[' :: (inner.data ++ [']']) := rfl
  have hnum : parseNumber ("[" ++ inner ++ "]") = none := by
    unfold parseNumber
    rw [hdata]
    exact parseNumChars_bracket _
  have hbt : (("[" ++ inner ++ "]") == "true") = false := by
    refine beq_eq_false_iff_ne.mpr fun hEq => ?_
    have hd := congrArg String.data hEq
    rw [hdata] at hd
    simp at hd
  have hbf : (("[" ++ inner ++ "]") == "false") = false := by
    refine beq_eq_false_iff_ne.mpr fun hEq => ?_
    have hd := congrArg String.data hEq
    rw [hdata] at hd
    simp at hd
  have hlast : ∀ h, ('[' :: (inner.data ++ [']'])).getLast h = ']' :=
    fun h => getLast_cons_concat inner.data '[' ']' h
  simp only [stepToken, hnum, hbt, hbf, Bool.or_self, Bool.false_eq_true,
    if_false, hdata, hlast, List.dropLast_concat]
  rw [show String.mk inner.data = inner from rfl, hrun]
  simp only [hstack, List.length_append, Nat.add_sub_cancel,
    Nat.add_sub_cancel_left, List.take_left, List.drop_left]
  have hk : extra.length + e.stack.length - e.stack.length = extra.length := by
    omega
  simp [hk, List.take_left', List.drop_left']

/-- Witness for C4 at the spec's own example: evaluating `[1 2 [3 4]]` pushes
the single List `[1, 2, [3, 4]]`. -/
theorem bracket_collects_net_pushes_witness :
    evalProgram 5 ⟨[], [], .Script⟩ "1 2 [3 4]"
        = .ok ⟨[.list [.number 3, .number 4], .number 2, .number 1], [], .Script⟩
    ∧ stepToken (evalProgram 5) 0 ⟨[], [], .Script⟩ "[1 2 [3 4]]"
        = .ok ⟨[.list [.number 1, .number 2, .list [.number 3, .number 4]]], [],
               .Script⟩ := by
  constructor
  · rfl
  · exact bracket_collects_net_pushes 5 0 ⟨[], [], .Script⟩
      ⟨[.list [.number 3, .number 4], .number 2, .number 1], [], .Script⟩
      "1 2 [3 4]" [.list [.number 3, .number 4], .number 2, .number 1] rfl rfl

/-- C5.  `get`, `set` and `del` validate the index against the list length
and push `Error "index-out-range"` on an out-of-range index, leaving the
rest of the state unchanged — but `insert` performs no such validation:
`Vec::insert` panics (aborting the process) as soon as the index exceeds the
list length, here at list `[1]`, index `3`. -/
theorem indexed_commands_validation :
    executeCommand (evalProgram 0) 0
        ⟨[.number 5, .list [.number 1]], [], .Script⟩ "get"
      = .ok ⟨[.error "index-out-range"], [], .Script⟩
    ∧ executeCommand (evalProgram 0) 0
        ⟨[.number 9, .number 5, .list [.number 1]], [], .Script⟩ "set"
      = .ok ⟨[.error "index-out-range"], [], .Script⟩
    ∧ executeCommand (evalProgram 0) 0
        ⟨[.number 5, .list [.number 1]], [], .Script⟩ "del"
      = .ok ⟨[.error "index-out-range"], [], .Script⟩
    ∧ executeCommand (evalProgram 0) 0
        ⟨[.number 7, .number 3, .list [.number 1]], [], .Script⟩ "insert"
      = .error .panic :=
  ⟨rfl, rfl, rfl, rfl⟩

/-- Unfolding of the `range` arm of the command table. -/
theorem executeCommand_range (evalP : Executor → String → Res) (lfuel : Nat)
    (e : Executor) :
    executeCommand evalP lfuel e "range" =
      (let (step, e1) := popStack e
       let (mx, e2) := popStack e1
       let (mn, e3) := popStack e2
       match rangeLoop lfuel mn.getNumber mx.getNumber step.getNumber with
       | some l => .ok { e3 with stack := .list (l.map Ty.number) :: e3.stack }
       | none => .error .fuel) := rfl

/-- C6, counterexample: with `min = 0`, `max = 1`, `step = 0` the `range`
loop makes no forward progress and the Rust `while i < max` loop never
terminates — the command does not push an empty List (nor anything else). -/
theorem range_no_progress_diverges : rangeCmdNoProgressStuck := by
  have h : ∀ m : ℕ, rangeLoop m 0 1 0 = none := by
    intro m
    induction m with
    | zero => rfl
    | succ k ih =>
      simp only [rangeLoop]
      rw [if_pos (by norm_num)]
      simp only [add_zero, zero_add, ih, Option.map_none']
  intro lfuel
  rw [executeCommand_range]
  simp only [popStack, Ty.getNumber]
  rw [h lfuel]

/-- Peeling one term off the arithmetic range sequence. -/
theorem mkRangeQ_cons (mn st : ℚ) (k : ℕ) :
    mkRangeQ mn st (k + 1) = mn :: mkRangeQ (st + mn) st k := by
  simp only [mkRangeQ, List.range_succ_eq_map, List.map_cons, List.map_map]
  rw [List.cons_eq_cons]
  refine ⟨by simp, List.map_congr_left fun a _ => ?_⟩
  simp only [Function.comp_apply, Nat.succ_eq_add_one]
  push_cast
  ring

/-- For positive step, `rangeLoop` with enough fuel terminates and returns
exactly the half-open arithmetic sequence below `mx`. -/
theorem rangeLoop_of_pos (st : ℚ) :
    ∀ (m : ℕ) (mn mx : ℚ), mx ≤ mn + st * m →
      ∃ k, k ≤ m ∧ rangeLoop (m + 1) mn mx st = some (mkRangeQ mn st k)
        ∧ mx ≤ mn + st * k ∧ (∀ j : ℕ, j < k → mn + st * j < mx) := by
  intro m
  induction m with
  | zero =>
    intro mn mx hb
    simp only [Nat.cast_zero, mul_zero, add_zero] at hb
    refine ⟨0, le_refl 0, ?_, by simpa using hb,
      fun j hj => absurd hj (Nat.not_lt_zero j)⟩
    simp only [rangeLoop]
    rw [if_neg (not_lt.mpr hb)]
    rfl
  | succ m ih =>
    intro mn mx hb
    by_cases h : mn < mx
    · have hb' : mx ≤ (st + mn) + st * m := by
        push_cast at hb
        linarith
      obtain ⟨k, hk, heq, hbound, hlt⟩ := ih (st + mn) mx hb'
      refine ⟨k + 1, Nat.succ_le_succ hk, ?_, ?_, ?_⟩
      · have hun : rangeLoop (m + 1 + 1) mn mx st =
            if mn < mx then
              (rangeLoop (m + 1) (st + mn) mx st).map (fun l => mn :: l)
            else some [] := rfl
        rw [hun, if_pos h, heq, mkRangeQ_cons]
        rfl
      · push_cast
        linarith [hbound]
      · intro j hj
        cases j with
        | zero => simpa using h
        | succ j' =>
          have hj' := hlt j' (Nat.lt_of_succ_lt_succ hj)
          push_cast
          push_cast at hj'
          linarith
    · refine ⟨0, Nat.zero_le _, ?_, by simpa using not_lt.mp h,
        fun j hj => absurd hj (Nat.not_lt_zero j)⟩
      simp only [rangeLoop]
      rw [if_neg h]
      rfl

/-- C6, amended.  For `step > 0` the `range` command terminates and pushes
exactly the half-open arithmetic sequence `min, min + step, …` strictly
below `max` (empty when `min ≥ max`); for `max ≤ min` it pushes the empty
List for any step.  (When step makes no forward progress and `min < max`,
the command instead loops forever — `range_no_progress_diverges`.) -/
theorem range_amended (mn mx st : ℚ) (rest : List Ty)
    (mem : List (String × Ty)) (mode : Mode) :
    (0 < st → ∃ lfuel k,
      executeCommand (evalProgram 0) lfuel
          ⟨.number st :: .number mx :: .number mn :: rest, mem, mode⟩ "range"
        = .ok ⟨.list ((mkRangeQ mn st k).map Ty.number) :: rest, mem, mode⟩
      ∧ mx ≤ mn + st * k ∧ (∀ j : ℕ, j < k → mn + st * j < mx))
    ∧ (mx ≤ mn → ∀ lfuel : ℕ,
      executeCommand (evalProgram 0) (lfuel + 1)
          ⟨.number st :: .number mx :: .number mn :: rest, mem, mode⟩ "range"
        = .ok ⟨.list [] :: rest, mem, mode⟩) := by
  constructor
  · intro hst
    obtain ⟨m, hm⟩ : ∃ m : ℕ, mx ≤ mn + st * m := by
      obtain ⟨m, hm⟩ := exists_nat_ge ((mx - mn) / st)
      refine ⟨m, ?_⟩
      rw [div_le_iff₀ hst] at hm
      linarith [hm]
    obtain ⟨k, _, heq, hbound, hlt⟩ := rangeLoop_of_pos st m mn mx hm
    refine ⟨m + 1, k, ?_, hbound, hlt⟩
    rw [executeCommand_range]
    simp only [popStack, Ty.getNumber]
    rw [heq]
  · intro hle lfuel
    rw [executeCommand_range]
    simp only [popStack, Ty.getNumber, rangeLoop]
    rw [if_neg (not_lt.mpr hle)]
    rfl

/-- Witness for C6's amended theorem at `min = 0`, `max = 2`, `step = 1`. -/
theorem range_amended_witness :
    (0 : ℚ) < 1 ∧ (∃ lfuel k,
      executeCommand (evalProgram 0) lfuel
          ⟨[.number 1, .number 2, .number 0], [], .Script⟩ "range"
        = .ok ⟨[.list ((mkRangeQ 0 1 k).map Ty.number)], [], .Script⟩
      ∧ (2 : ℚ) ≤ 0 + 1 * k ∧ (∀ j : ℕ, j < k → (0 : ℚ) + 1 * j < 2)) :=
  ⟨by norm_num, (range_amended 0 2 1 [] [] .Script).1 (by norm_num)⟩

/-- Unfolding of the `sort` arm of the command table. -/
theorem executeCommand_sort (evalP : Executor → String → Res) (lfuel : Nat)
    (e : Executor) :
    executeCommand evalP lfuel e "sort" =
      (let (lst, e1) := popStack e
       .ok { e1 with stack :=
         (Ty.list (((lst.getList.map Ty.getString).mergeSort
           (fun a b => a ≤ b)).map Ty.str)) :: e1.stack }) := rfl

/-- C7, amended.  `sort` pushes the list of to-Text representations of the
elements — as Text values — sorted lexicographically: a permutation of the
to-Text images of the input elements, in ascending string order.  (It does
not push the original elements themselves; see `sort_replaces_elements`.) -/
theorem sort_pushes_sorted_toText (l : List Ty) (rest : List Ty)
    (mem : List (String × Ty)) (mode : Mode)
    (evalP : Executor → String → Res) (lfuel : Nat) :
    executeCommand evalP lfuel ⟨.list l :: rest, mem, mode⟩ "sort"
      = .ok ⟨(Ty.list (((l.map Ty.getString).mergeSort
               (fun a b => a ≤ b)).map Ty.str)) :: rest, mem, mode⟩
    ∧ ((l.map Ty.getString).mergeSort (fun a b => a ≤ b)).Perm
        (l.map Ty.getString)
    ∧ ((l.map Ty.getString).mergeSort (fun a b => a ≤ b)).Sorted (· ≤ ·) := by
  refine ⟨rfl, List.mergeSort_perm _ _, ?_⟩
  exact List.sorted_mergeSort' _

unseal List.merge List.mergeSort in
/-- C7, counterexample: sorting the list `[Number 1]` pushes `[Text "1"]`, a
list of string renderings, not a permutation of the original elements. -/
theorem sort_replaces_elements :
    executeCommand (evalProgram 0) 0 ⟨[.list [.number 1]], [], .Script⟩ "sort"
      = .ok ⟨[.list [.str "1"]], [], .Script⟩
    ∧ ¬ ([Ty.str "1"].Perm [Ty.number 1]) := by
  constructor
  · rfl
  · intro h
    exact Ty.noConfusion (List.singleton_perm_singleton.mp h)
